import Mathlib

/-!
Verification model of the quay-scanner repository (Go).

Go strings are modelled as `List Char`; the helpers from Go's `strings`
package used by the code (`HasPrefix`, `TrimPrefix`, `SplitN(s, sep, 2)`
with a one-character separator, `Contains`) are embedded below.  Fallible
Go functions returning `(value, error)` pairs are modelled as `Except`,
with one error constructor per `fmt.Errorf` site, carrying the data the
format string interpolates.  The network and JSON decoding are abstracted
as an oracle (`ReqOutcome`) describing the observable outcome of one HTTP
round-trip; everything after that point is translated faithfully from the
source.
-/

deriving instance DecidableEq for Except

namespace QuayScanner

/-- Go `strings.HasPrefix pre s` over `List Char` (first argument is the
prefixed candidate `s` in Go; here the candidate comes second). -/
def hasPrefixL : List Char → List Char → Bool
  | [], _ => true
  | _ :: _, [] => false
  | p :: ps, c :: cs => p = c && hasPrefixL ps cs

/-- Go `strings.TrimPrefix(s, pre)`: drops `pre` when it is a prefix of
`s`, otherwise returns `s` unchanged. -/
def trimPrefixL (pre s : List Char) : List Char :=
  if hasPrefixL pre s then s.drop pre.length else s

/-- Split at the first occurrence of `sep`: `some (before, after)` when
`sep` occurs, `none` otherwise.  Go's `strings.SplitN(s, sep, 2)` (with a
one-character `sep`) returns `[before, after]` in the first case and the
one-element list `[s]` in the second. -/
def splitFirst (sep : Char) : List Char → Option (List Char × List Char)
  | [] => none
  | c :: cs =>
    if c = sep then some ([], cs)
    else
      match splitFirst sep cs with
      | none => none
      | some (a, b) => some (c :: a, b)

/-- Go `strings.Contains(hay, needle)`: substring containment. -/
def containsSub (needle : List Char) : List Char → Bool
  | [] => needle.isEmpty
  | c :: cs => hasPrefixL needle (c :: cs) || containsSub needle cs

/-- The registry host that every accepted reference must start with
(main.go:290). -/
def registryHost : List Char := "quay.io/".toList

/-- The path-traversal sequence rejected by the parser (main.go:303). -/
def dotdot : List Char := "..".toList

/-- The forward slash rejected inside tags (main.go:303). -/
def slashChar : List Char := "/".toList

/-- One constructor per `fmt.Errorf` site in `parseImageURL`
(main.go:291, :297, :304); `badFormat` carries the offending URL the
format string interpolates. -/
inductive ParseError where
  | badPrefixErr : ParseError
  | badFormat (imageURL : List Char) : ParseError
  | invalidChars : ParseError
deriving DecidableEq, Repr

/-- `parseImageURL` (main.go:289-308): checks the `quay.io/` prefix,
strips it, splits on the first colon into `(repo, tag)`, requires both
parts non-empty, and rejects `..` in repo or tag and `/` in the tag.
Go's `(repo, tag, err)` multi-return with the `err != nil` convention is
modelled as `Except` (callers discard the pair whenever `err` is set). -/
def parseImageURL (imageURL : List Char) : Except ParseError (List Char × List Char) :=
  if hasPrefixL registryHost imageURL = false then
    .error .badPrefixErr
  else
    let trimmedURL := trimPrefixL registryHost imageURL
    match splitFirst ':' trimmedURL with
    | none => .error (.badFormat imageURL)
    | some (repo, tag) =>
      if repo = [] ∨ tag = [] then .error (.badFormat imageURL)
      else if containsSub dotdot repo || containsSub dotdot tag || containsSub slashChar tag then
        .error .invalidChars
      else .ok (repo, tag)

/-- The JSON fields of the tag-detail response (types.go `TagDetail`);
the code reads only `ManifestDigest` (json `manifest_digest`) and
`ImageID` (json `docker_image_id`).  A JSON field absent from the
response decodes to the zero value, i.e. the empty string here. -/
structure TagDetail where
  Name : List Char
  ManifestDigest : List Char
  ImageID : List Char
  LastModified : List Char
  Size : Int
  IsManifestList : Bool
  StartTs : Int
  Expiration : Option Int
  Reversion : Bool
deriving DecidableEq, Repr

/-- types.go `Vulnerability`.  `Metadata` (an arbitrary JSON object) and
`FixedIn` (recursive, never read by the code) are omitted from the model;
no operation under verification inspects them. -/
structure Vulnerability where
  Name : List Char
  NamespaceName : List Char
  Description : List Char
  Link : List Char
  Severity : List Char
  FixedBy : List Char
deriving DecidableEq, Repr

/-- types.go `Feature`. -/
structure Feature where
  Name : List Char
  Version : List Char
  VersionFormat : List Char
  NamespaceName : List Char
  AddedBy : List Char
  Vulnerabilities : List Vulnerability
deriving DecidableEq, Repr

/-- types.go `Layer`. -/
structure Layer where
  Name : List Char
  NamespaceName : List Char
  IndexedByVersion : Int
  Features : List Feature
deriving DecidableEq, Repr

/-- types.go `SecurityData`. -/
structure SecurityData where
  Layer : Layer
deriving DecidableEq, Repr

/-- types.go `SecurityReport`: the scan `status` plus the nested data. -/
structure SecurityReport where
  Status : List Char
  Data : SecurityData
deriving DecidableEq, Repr

/-- The scan status the client regards as complete (client.go:135). -/
def scannedStatus : List Char := "scanned".toList

/-- The digest scheme stripped by `GetImageID` (client.go:116, :121). -/
def shaScheme : List Char := "sha256:".toList

/-- Observable outcome of one HTTP round-trip made by `doRequest`.
Request-construction and transport failures (client.go:52, :62, :83) are
grouped as `netError`, since each aborts before any status is observed;
otherwise a response arrives with a `status` code, a raw `body`, and the
outcome `decoded` of JSON-decoding that body into the target type
(`none` when decoding fails, client.go:98). -/
inductive ReqOutcome (α : Type) where
  | netError (msg : List Char) : ReqOutcome α
  | httpResponse (status : Nat) (body : List Char) (decoded : Option α) : ReqOutcome α
deriving DecidableEq, Repr

/-- One constructor per error site in `doRequest`: `network` for the
pre-status failures, `apiStatus` for the single non-OK-status branch
(client.go:89-95, carrying the status code and the at-most-512-byte body
snippet the format string interpolates), `decodeFailed` for a JSON
decoding failure (client.go:98-99). -/
inductive ClientError where
  | network (msg : List Char) : ClientError
  | apiStatus (status : Nat) (snippet : List Char) : ClientError
  | decodeFailed : ClientError
deriving DecidableEq, Repr

/-- `doRequest` (client.go:50-103): any status other than 200 becomes the
generic `apiStatus` error with a body snippet of at most 512 bytes; on a
200 response the decoded body is returned, a decode failure becoming
`decodeFailed`. -/
def doRequest {α : Type} (o : ReqOutcome α) : Except ClientError α :=
  match o with
  | .netError m => .error (.network m)
  | .httpResponse status body decoded =>
    if status ≠ 200 then .error (.apiStatus status (body.take 512))
    else
      match decoded with
      | none => .error .decodeFailed
      | some v => .ok v

/-- Errors of `GetImageID`: `tagDetails` wraps a `doRequest` failure
(client.go:111), `digestNotFound` is the neither-field-present case
(client.go:124). -/
inductive GetImageIDError where
  | tagDetails (repo tag : List Char) (cause : ClientError) : GetImageIDError
  | digestNotFound (tag : List Char) : GetImageIDError
deriving DecidableEq, Repr

/-- `GetImageID` (client.go:106-125): fetches the tag detail, prefers the
non-empty `ManifestDigest`, falls back to a non-empty `ImageID`, errors
when both are empty; a `sha256:` scheme prefix is stripped from the
returned value.  The response is supplied by the oracle `o`. -/
def GetImageID (repo tag : List Char) (o : ReqOutcome TagDetail) :
    Except GetImageIDError (List Char) :=
  match doRequest o with
  | .error e => .error (.tagDetails repo tag e)
  | .ok tagDetail =>
    if tagDetail.ManifestDigest ≠ [] then
      .ok (trimPrefixL shaScheme tagDetail.ManifestDigest)
    else if tagDetail.ImageID ≠ [] then
      .ok (trimPrefixL shaScheme tagDetail.ImageID)
    else
      .error (.digestNotFound tag)

/-- The single error site of `GetVulnerabilities` (client.go:133),
wrapping a `doRequest` failure. -/
inductive GetVulnerabilitiesError where
  | securityInfo (imageDigest : List Char) (cause : ClientError) : GetVulnerabilitiesError
deriving DecidableEq, Repr

/-- `GetVulnerabilities` (client.go:128-139), keeping Go's
`(*SecurityReport, error)` shape as a pair of options: `(none, some e)`
on failure, `(some report, none)` on success.  A non-"scanned" status
only triggers a log line (client.go:135-137) and does not change the
returned value. -/
def GetVulnerabilities (repo imageDigest : List Char) (o : ReqOutcome SecurityReport) :
    Option SecurityReport × Option GetVulnerabilitiesError :=
  match doRequest o with
  | .error e => (none, some (.securityInfo imageDigest e))
  | .ok report => (some report, none)

/-- One constructor per `fmt.Sprintf` error site in `processImage`
(main.go:257, :263, :269, :275); Go stores the formatted string in the
`Error` field, the empty string meaning no error, modelled as `Option`. -/
inductive ScanError where
  | parsingURLFailed (cause : ParseError) : ScanError
  | gettingImageIDFailed (cause : GetImageIDError) : ScanError
  | imageIDEmpty (tag : List Char) : ScanError
  | gettingVulnerabilitiesFailed (cause : GetVulnerabilitiesError) : ScanError
deriving DecidableEq, Repr

/-- types.go `ImageScanResult`: the original URL, an optional report
(Go nil pointer = `none`), and an optional error (Go empty string =
`none`). -/
structure ImageScanResult where
  ImageURL : List Char
  Report : Option SecurityReport
  Error : Option ScanError
deriving DecidableEq, Repr

/-- The remote behaviour visible through the shared `quay.Client`: for
each `(repo, tag)` the outcome of the tag-detail request, and for each
`(repo, digest)` the outcome of the security request.  The client is
read-only configuration, so one oracle describes every call. -/
structure Remote where
  tagReq : List Char → List Char → ReqOutcome TagDetail
  secReq : List Char → List Char → ReqOutcome SecurityReport

/-- `processImage` (main.go:252-285): parse, resolve the image id, reject
an empty id, fetch vulnerabilities; the first failure is recorded in the
result's `Error` and returns early.  In the vulnerability-failure branch
the code copies a non-nil report into the result (main.go:277-279),
which is exactly `Report := report?` for the returned pair. -/
def processImage (imageURL : List Char) (remote : Remote) : ImageScanResult :=
  match parseImageURL imageURL with
  | .error e => { ImageURL := imageURL, Report := none, Error := some (.parsingURLFailed e) }
  | .ok (repo, tag) =>
    match GetImageID repo tag (remote.tagReq repo tag) with
    | .error e => { ImageURL := imageURL, Report := none, Error := some (.gettingImageIDFailed e) }
    | .ok imageID =>
      if imageID = [] then
        { ImageURL := imageURL, Report := none, Error := some (.imageIDEmpty tag) }
      else
        match GetVulnerabilities repo imageID (remote.secReq repo imageID) with
        | (report?, some e) =>
          { ImageURL := imageURL, Report := report?,
            Error := some (.gettingVulnerabilitiesFailed e) }
        | (report?, none) =>
          { ImageURL := imageURL, Report := report?, Error := none }

/-- The aggregated result map (`map[string]quay.ImageScanResult`,
main.go:191), as an association list whose keys are kept distinct:
`allResults[result.ImageURL] = result` keeps one entry per key. -/
abbrev ResultSet : Type := List (List Char × ImageScanResult)

/-- Go map lookup `m[key]` (comma-ok form). -/
def lookupRS : ResultSet → List Char → Option ImageScanResult
  | [], _ => none
  | (k, v) :: rest, key => if key = k then some v else lookupRS rest key

/-- Removes every entry stored under `key`. -/
def eraseKey (key : List Char) : ResultSet → ResultSet
  | [] => []
  | (k, v) :: rest =>
    if k = key then eraseKey key rest else (k, v) :: eraseKey key rest

/-- Go map assignment `allResults[result.ImageURL] = result`
(main.go:220): the new entry replaces any previous entry for the key. -/
def insertResult (m : ResultSet) (r : ImageScanResult) : ResultSet :=
  (r.ImageURL, r) :: eraseKey r.ImageURL m

/-- The collector loop (main.go:218-223): results are drained in their
delivery order and stored into the map keyed by `result.ImageURL`. -/
def collectResults (delivered : List ImageScanResult) : ResultSet :=
  delivered.foldl insertResult []

/-- The multiset of results the workers produce for a batch: each URL in
the jobs channel is processed by `processImage` exactly once
(main.go:240-249). -/
def scanBatch (remote : Remote) (imageURLs : List (List Char)) : List ImageScanResult :=
  imageURLs.map (fun url => processImage url remote)

/-- `runWorkerPool` (main.go:187-237).  The channel mechanics guarantee
that every job is processed by `processImage` exactly once and its result
delivered to the collector exactly once, in a completion order chosen by
the scheduler; the model takes that delivery order as an explicit
parameter `delivered` and accepts exactly the permutations of the batch.
With zero workers and a non-empty job list no result is ever delivered
and the collector blocks forever, returned as `none` (the flag validation
at main.go:123-125 rules this out). -/
def runWorkerPool (imageURLs : List (List Char)) (remote : Remote) (numWorkers : Nat)
    (delivered : List ImageScanResult) : Option ResultSet :=
  if numWorkers = 0 ∧ imageURLs ≠ [] then none
  else if delivered.isPerm (scanBatch remote imageURLs) then
    some (collectResults delivered)
  else none

/-- Whether an `Except` value is a success. -/
def exceptIsOk {ε α : Type} : Except ε α → Bool
  | .ok _ => true
  | .error _ => false

/-- Modelled from the spec's words (sections 4.1 and 8), for comparison
with `parseImageURL`: a reference is accepted exactly when it begins with
the expected registry host prefix and, after stripping it, splitting on
the first colon yields two non-empty parts with no `..` in either part
and no `/` in the tag. -/
def specParseSucceeds (s : List Char) : Bool :=
  hasPrefixL registryHost s &&
  (match splitFirst ':' (trimPrefixL registryHost s) with
   | none => false
   | some (repo, tag) =>
     !repo.isEmpty && !tag.isEmpty &&
     !containsSub dotdot repo && !containsSub dotdot tag && !containsSub slashChar tag)

/-- A tag detail whose manifest digest is literally the scheme marker. -/
def schemeOnlyTagDetail : TagDetail :=
  { Name := [], ManifestDigest := "sha256:".toList, ImageID := [], LastModified := [],
    Size := 0, IsManifestList := false, StartTs := 0, Expiration := none, Reversion := false }

/-- A tag detail carrying an ordinary manifest digest. -/
def sampleTagDetail : TagDetail :=
  { Name := [], ManifestDigest := "sha256:abc123".toList, ImageID := [], LastModified := [],
    Size := 0, IsManifestList := false, StartTs := 0, Expiration := none, Reversion := false }

/-- A security report whose scan is complete. -/
def sampleReport : SecurityReport :=
  { Status := "scanned".toList,
    Data := { Layer := { Name := [], NamespaceName := [], IndexedByVersion := 0, Features := [] } } }

/-- A security report still waiting to be scanned. -/
def queuedReport : SecurityReport :=
  { Status := "queued".toList,
    Data := { Layer := { Name := [], NamespaceName := [], IndexedByVersion := 0, Features := [] } } }

/-- A remote on which every request succeeds. -/
def sampleRemote : Remote :=
  { tagReq := fun _ _ => .httpResponse 200 [] (some sampleTagDetail),
    secReq := fun _ _ => .httpResponse 200 [] (some sampleReport) }

/-- A remote on which every request fails in transport. -/
def failRemote : Remote :=
  { tagReq := fun _ _ => .netError [],
    secReq := fun _ _ => .netError [] }

/-- A three-element batch containing one duplicated reference. -/
def sampleURLs : List (List Char) :=
  ["quay.io/a/b:t".toList, "quay.io/c/d:u".toList, "quay.io/a/b:t".toList]

/-- The batch results of `sampleURLs` under the all-failing remote. -/
def failBatch : List ImageScanResult := scanBatch failRemote sampleURLs

/-- The batch results of `sampleURLs` under the all-succeeding remote. -/
def sampleBatch : List ImageScanResult := scanBatch sampleRemote sampleURLs

/-- The keys of a result map. -/
def keysRS (m : ResultSet) : List (List Char) := m.map Prod.fst

/-- The collected result map of `sampleURLs` under the all-failing
remote, delivered in submission order. -/
def failRS : ResultSet := collectResults failBatch

lemma hasPrefixL_append (p rest : List Char) : hasPrefixL p (p ++ rest) = true := by
  induction p with
  | nil => rfl
  | cons c cs ih => simp [hasPrefixL, ih]

lemma trimPrefixL_append (p rest : List Char) : trimPrefixL p (p ++ rest) = rest := by
  unfold trimPrefixL
  rw [hasPrefixL_append]
  simp

lemma splitFirst_no_sep {sep : Char} {repo : List Char} (tag : List Char)
    (h : repo.contains sep = false) :
    splitFirst sep (repo ++ sep :: tag) = some (repo, tag) := by
  induction repo with
  | nil => simp [splitFirst]
  | cons c cs ih =>
    simp only [List.contains_cons, Bool.or_eq_false_iff] at h
    have hc : ¬(c = sep) := by
      intro he
      subst he
      simp at h
    rw [List.cons_append]
    unfold splitFirst
    rw [if_neg hc, ih h.2]

lemma hasPrefixL_iff_append (p s : List Char) :
    hasPrefixL p s = true ↔ ∃ rest, s = p ++ rest := by
  constructor
  · induction p generalizing s with
    | nil => exact fun _ => ⟨s, rfl⟩
    | cons c cs ih =>
      intro h
      cases s with
      | nil => simp [hasPrefixL] at h
      | cons x xs =>
        simp only [hasPrefixL, Bool.and_eq_true, decide_eq_true_eq] at h
        obtain ⟨rest, hrest⟩ := ih xs h.2
        exact ⟨rest, by simp [h.1, hrest]⟩
  · rintro ⟨rest, rfl⟩
    exact hasPrefixL_append p rest

lemma trimPrefixL_eq_nil_iff (p s : List Char) (hp : p ≠ []) :
    trimPrefixL p s = [] ↔ (s = p ∨ s = []) := by
  by_cases h : hasPrefixL p s = true
  · obtain ⟨rest, rfl⟩ := (hasPrefixL_iff_append p s).1 h
    rw [trimPrefixL, if_pos h, List.drop_left]
    constructor
    · intro hr
      subst hr
      simp
    · rintro (h1 | h1)
      · have hlen := congrArg List.length h1
        simp at hlen
        simpa using hlen
      · rcases List.append_eq_nil.1 h1 with ⟨hp', hr⟩
        exact hr
  · rw [trimPrefixL, if_neg h]
    constructor
    · intro hs
      exact Or.inr hs
    · rintro (h1 | h1)
      · have hpp := hasPrefixL_append p []
        rw [List.append_nil] at hpp
        rw [h1] at h
        exact absurd hpp h
      · exact h1

/-- C7: for every reference of the form `quay.io/` ++ repo ++ `:` ++ tag
whose repo part is colon-free and non-empty, whose tag is non-empty, with
no `..` in repo or tag and no `/` in the tag, `parseImageURL` succeeds
and returns exactly that `(repo, tag)` pair — the split is on the first
colon only, so the tag may contain further colons. -/
theorem parseImageURL_valid_refs (repo tag : List Char)
    (hcolon : repo.contains ':' = false)
    (hr : repo ≠ []) (ht : tag ≠ [])
    (hrd : containsSub dotdot repo = false)
    (htd : containsSub dotdot tag = false)
    (hts : containsSub slashChar tag = false) :
    parseImageURL (registryHost ++ repo ++ ':' :: tag) = .ok (repo, tag) := by
  have h1 : hasPrefixL registryHost (registryHost ++ (repo ++ ':' :: tag)) = true :=
    hasPrefixL_append _ _
  have h2 : trimPrefixL registryHost (registryHost ++ (repo ++ ':' :: tag)) =
      repo ++ ':' :: tag := trimPrefixL_append _ _
  simp [parseImageURL, h1, h2, splitFirst_no_sep tag hcolon, hr, ht, hrd, htd, hts]

/-- Witness for C7 at the reference `quay.io/coreos/etcd:v3.5.0`. -/
theorem parseImageURL_valid_refs_witness :
    ("coreos/etcd".toList).contains ':' = false ∧
    "coreos/etcd".toList ≠ [] ∧ "v3.5.0".toList ≠ [] ∧
    containsSub dotdot ("coreos/etcd".toList) = false ∧
    containsSub dotdot ("v3.5.0".toList) = false ∧
    containsSub slashChar ("v3.5.0".toList) = false ∧
    parseImageURL (registryHost ++ "coreos/etcd".toList ++ ':' :: "v3.5.0".toList) =
      .ok ("coreos/etcd".toList, "v3.5.0".toList) :=
  ⟨by decide, by decide, by decide, by decide, by decide, by decide,
    parseImageURL_valid_refs ("coreos/etcd".toList) ("v3.5.0".toList)
      (by decide) (by decide) (by decide) (by decide) (by decide) (by decide)⟩

/-- C8: `parseImageURL` succeeds exactly on the inputs accepted by the
spec's description (`specParseSucceeds`), and each failure category
produces the corresponding error: a missing `quay.io/` prefix, a
post-strip split that does not yield two non-empty parts, and `..` in
repo or tag or `/` in the tag; being `Except`-valued, a failing parse
returns no partial `(repo, tag)` pair. -/
theorem parseImageURL_fail_char (s : List Char) :
    ((exceptIsOk (parseImageURL s)) = specParseSucceeds s) ∧
    (hasPrefixL registryHost s = false → parseImageURL s = .error .badPrefixErr) ∧
    (hasPrefixL registryHost s = true →
      splitFirst ':' (trimPrefixL registryHost s) = none →
      parseImageURL s = .error (.badFormat s)) ∧
    (∀ r t, hasPrefixL registryHost s = true →
      splitFirst ':' (trimPrefixL registryHost s) = some (r, t) →
      (r = [] ∨ t = []) → parseImageURL s = .error (.badFormat s)) ∧
    (∀ r t, hasPrefixL registryHost s = true →
      splitFirst ':' (trimPrefixL registryHost s) = some (r, t) →
      r ≠ [] → t ≠ [] →
      (containsSub dotdot r || containsSub dotdot t || containsSub slashChar t) = true →
      parseImageURL s = .error .invalidChars) := by
  refine ⟨?_, ?_, ?_, ?_, ?_⟩
  · cases h : hasPrefixL registryHost s with
    | false => simp [parseImageURL, specParseSucceeds, h, exceptIsOk]
    | true =>
      cases hsp : splitFirst ':' (trimPrefixL registryHost s) with
      | none => simp [parseImageURL, specParseSucceeds, h, hsp, exceptIsOk]
      | some p =>
        obtain ⟨r, t⟩ := p
        by_cases hre : r = [] ∨ t = []
        · simp [parseImageURL, specParseSucceeds, h, hsp, hre, exceptIsOk]
          rcases hre with h' | h' <;> simp [h']
        · push_neg at hre
          by_cases hic : (containsSub dotdot r || containsSub dotdot t || containsSub slashChar t) = true
          · simp [parseImageURL, specParseSucceeds, h, hsp, hre.1, hre.2, exceptIsOk, hic]
            intro ha hb
            rw [ha, hb] at hic
            simpa using hic
          · simp only [Bool.not_eq_true, Bool.or_eq_false_iff] at hic
            simp [parseImageURL, specParseSucceeds, h, hsp, hre.1, hre.2, exceptIsOk,
              hic.1.1, hic.1.2, hic.2]
  · intro h
    simp [parseImageURL, h]
  · intro h hsp
    simp [parseImageURL, h, hsp]
  · intro r t h hsp hre
    simp [parseImageURL, h, hsp, hre]
  · intro r t h hsp hr ht hic
    simp [parseImageURL, h, hsp, hr, ht, hic]

/-- Witness for C8 at a bad-prefix input and an invalid-chars input. -/
theorem parseImageURL_fail_char_witness :
    hasPrefixL registryHost ("docker.io/a:b".toList) = false ∧
    parseImageURL ("docker.io/a:b".toList) = .error .badPrefixErr ∧
    parseImageURL ("quay.io/a..b:c".toList) = .error .invalidChars :=
  ⟨by decide,
    (parseImageURL_fail_char ("docker.io/a:b".toList)).2.1 (by decide),
    (parseImageURL_fail_char ("quay.io/a..b:c".toList)).2.2.2.2 ("a..b".toList) ("c".toList)
      (by decide) (by decide) (by decide) (by decide) (by decide)⟩

/-- C5: `GetImageID` prefers the manifest-digest field, falls back to
the legacy docker-image-id field only when the manifest digest is empty
(the decoded value of an absent JSON field), fails with the dedicated
digest-not-found error when both are empty, and strips a `sha256:`
scheme prefix from the returned value. -/
theorem GetImageID_field_preference (repo tag body : List Char) (td : TagDetail) :
    (td.ManifestDigest ≠ [] →
      GetImageID repo tag (.httpResponse 200 body (some td)) =
        .ok (trimPrefixL shaScheme td.ManifestDigest)) ∧
    (td.ManifestDigest = [] → td.ImageID ≠ [] →
      GetImageID repo tag (.httpResponse 200 body (some td)) =
        .ok (trimPrefixL shaScheme td.ImageID)) ∧
    (td.ManifestDigest = [] → td.ImageID = [] →
      GetImageID repo tag (.httpResponse 200 body (some td)) =
        .error (.digestNotFound tag)) ∧
    (hasPrefixL shaScheme td.ManifestDigest = true →
      GetImageID repo tag (.httpResponse 200 body (some td)) =
        .ok (td.ManifestDigest.drop shaScheme.length)) := by
  refine ⟨?_, ?_, ?_, ?_⟩
  · intro h
    simp [GetImageID, doRequest, h]
  · intro h1 h2
    simp [GetImageID, doRequest, h1, h2]
  · intro h1 h2
    simp [GetImageID, doRequest, h1, h2]
  · intro h
    have hne : td.ManifestDigest ≠ [] := by
      intro hnil
      rw [hnil] at h
      simp [hasPrefixL, shaScheme] at h
    simp [GetImageID, doRequest, hne, trimPrefixL, h]

/-- Witness for C5 at a tag detail with manifest digest sha256:abc123. -/
theorem GetImageID_field_preference_witness :
    sampleTagDetail.ManifestDigest ≠ [] ∧
    hasPrefixL shaScheme sampleTagDetail.ManifestDigest = true ∧
    GetImageID "r".toList "t".toList (.httpResponse 200 [] (some sampleTagDetail)) =
      .ok ("abc123".toList) :=
  ⟨by decide, by decide, by
    have h := (GetImageID_field_preference "r".toList "t".toList [] sampleTagDetail).2.2.2
      (by decide)
    rw [h]
    decide⟩

/-- C3 counterexample: a tag-detail response whose manifest digest is
literally the scheme marker `sha256:` makes `GetImageID` return without
error, yet the returned digest is the empty string — refuting
non-emptiness on every non-error return (the `TrimPrefix` at
client.go:116 strips the whole field). -/
theorem GetImageID_empty_success_cex :
    ¬ (∀ (repo tag body : List Char) (td : TagDetail) (d : List Char),
        GetImageID repo tag (.httpResponse 200 body (some td)) = .ok d → d ≠ []) := by
  intro hclaim
  exact hclaim [] [] [] schemeOnlyTagDetail [] (by decide) rfl

/-- C3 amended: when `GetImageID` succeeds, the returned digest is empty
exactly when the selected field (the manifest digest, or on its absence
the legacy image id) is literally `sha256:`; in every other success the
digest is non-empty. -/
theorem GetImageID_success_emptiness (repo tag body : List Char) (td : TagDetail)
    (d : List Char)
    (h : GetImageID repo tag (.httpResponse 200 body (some td)) = .ok d) :
    d = [] ↔ (td.ManifestDigest = shaScheme ∨
      (td.ManifestDigest = [] ∧ td.ImageID = shaScheme)) := by
  have hsha : shaScheme ≠ ([] : List Char) := by decide
  by_cases h1 : td.ManifestDigest = []
  · by_cases h2 : td.ImageID = []
    · exfalso
      simp [GetImageID, doRequest, h1, h2] at h
    · have hd : d = trimPrefixL shaScheme td.ImageID := by
        have hh := h
        simp [GetImageID, doRequest, h1, h2] at hh
        exact hh.symm
      rw [hd, trimPrefixL_eq_nil_iff _ _ hsha]
      simp [h1, h2, (by decide : ¬(([] : List Char) = shaScheme))]
  · have hd : d = trimPrefixL shaScheme td.ManifestDigest := by
      have hh := h
      simp [GetImageID, doRequest, h1] at hh
      exact hh.symm
    rw [hd, trimPrefixL_eq_nil_iff _ _ hsha]
    simp [h1]

/-- Witness for the amended C3 at the scheme-only tag detail. -/
theorem GetImageID_success_emptiness_witness :
    GetImageID [] [] (.httpResponse 200 [] (some schemeOnlyTagDetail)) = .ok [] ∧
    (([] : List Char) = [] ↔ (schemeOnlyTagDetail.ManifestDigest = shaScheme ∨
      (schemeOnlyTagDetail.ManifestDigest = [] ∧ schemeOnlyTagDetail.ImageID = shaScheme))) :=
  ⟨by decide, GetImageID_success_emptiness [] [] [] schemeOnlyTagDetail [] (by decide)⟩

/-- C4 counterexample: an HTTP 404 produces exactly the same error
constructor as an HTTP 500 — the single generic non-OK-status branch of
`doRequest` (client.go:89-95), wrapped unchanged by `GetImageID` and
`GetVulnerabilities` — differing only in the embedded status number, so
no dedicated tag-not-found or report-not-found error distinct from
generic request failures exists anywhere in the code. -/
theorem notFound_not_dedicated_cex :
    GetImageID "r".toList "t".toList (.httpResponse 404 "b".toList none) =
      .error (.tagDetails "r".toList "t".toList (.apiStatus 404 "b".toList)) ∧
    GetImageID "r".toList "t".toList (.httpResponse 500 "b".toList none) =
      .error (.tagDetails "r".toList "t".toList (.apiStatus 500 "b".toList)) ∧
    GetVulnerabilities "r".toList "d".toList (.httpResponse 404 "b".toList none) =
      (none, some (.securityInfo "d".toList (.apiStatus 404 "b".toList))) ∧
    GetVulnerabilities "r".toList "d".toList (.httpResponse 500 "b".toList none) =
      (none, some (.securityInfo "d".toList (.apiStatus 500 "b".toList))) :=
  ⟨by decide, by decide, by decide, by decide⟩

/-- C4 amended: every non-200 status, 404 included, makes `GetImageID`
and `GetVulnerabilities` fail through the one generic request-failed
error carrying the status code and an at-most-512-byte body snippet; a
404 is distinguishable from other failures only by that embedded code,
not by a dedicated not-found variant. -/
theorem notFound_generic_error (repo tag digest body : List Char) (s : Nat)
    (tagDecoded : Option TagDetail) (repDecoded : Option SecurityReport)
    (h : s ≠ 200) :
    GetImageID repo tag (.httpResponse s body tagDecoded) =
      .error (.tagDetails repo tag (.apiStatus s (body.take 512))) ∧
    GetVulnerabilities repo digest (.httpResponse s body repDecoded) =
      (none, some (.securityInfo digest (.apiStatus s (body.take 512)))) := by
  constructor
  · simp [GetImageID, doRequest, h]
  · simp [GetVulnerabilities, doRequest, h]

/-- Witness for the amended C4 at status 404. -/
theorem notFound_generic_error_witness :
    (404 : Nat) ≠ 200 ∧
    GetImageID "r".toList "t".toList (.httpResponse 404 "b".toList none) =
      .error (.tagDetails "r".toList "t".toList (.apiStatus 404 ("b".toList.take 512))) :=
  ⟨by decide,
    (notFound_generic_error "r".toList "t".toList "d".toList "b".toList 404 none none
      (by decide)).1⟩

/-- C6: a successfully received and decoded security report is returned
as data with no error even when its status is not "scanned" — the
status check at client.go:135 only logs a warning. -/
theorem GetVulnerabilities_nonscanned_ok (repo digest body : List Char)
    (report : SecurityReport) (h : report.Status ≠ scannedStatus) :
    GetVulnerabilities repo digest (.httpResponse 200 body (some report)) =
      (some report, none) := by
  simp [GetVulnerabilities, doRequest]

/-- Witness for C6 at a report whose status is "queued". -/
theorem GetVulnerabilities_nonscanned_ok_witness :
    queuedReport.Status ≠ scannedStatus ∧
    GetVulnerabilities "r".toList "d".toList (.httpResponse 200 [] (some queuedReport)) =
      (some queuedReport, none) :=
  ⟨by decide, GetVulnerabilities_nonscanned_ok "r".toList "d".toList [] queuedReport (by decide)⟩

lemma processImage_ImageURL (u : List Char) (remote : Remote) :
    (processImage u remote).ImageURL = u := by
  unfold processImage
  repeat' split
  all_goals rfl

lemma GetVulnerabilities_excl (repo digest : List Char) (o : ReqOutcome SecurityReport) :
    (GetVulnerabilities repo digest o).1.isSome = (GetVulnerabilities repo digest o).2.isNone := by
  unfold GetVulnerabilities
  cases h : doRequest o <;> simp

/-- C2: `processImage` is a strict three-step early-exit pipeline.  A
parse failure yields a parse error with no report and a result
independent of the remote (no client call); a digest-resolution failure,
or an empty digest without error, yields the corresponding error with no
report and a result independent of the security endpoint (no
vulnerability fetch); a vulnerability-fetch failure yields a fetch
error; only full success attaches the report with no error. -/
theorem processImage_pipeline (imageURL : List Char) (remote altRemote : Remote) :
    (∀ e, parseImageURL imageURL = .error e →
      processImage imageURL remote =
        { ImageURL := imageURL, Report := none, Error := some (.parsingURLFailed e) } ∧
      processImage imageURL remote = processImage imageURL altRemote) ∧
    (∀ repo tag e, parseImageURL imageURL = .ok (repo, tag) →
      GetImageID repo tag (remote.tagReq repo tag) = .error e →
      processImage imageURL remote =
        { ImageURL := imageURL, Report := none, Error := some (.gettingImageIDFailed e) }) ∧
    (∀ repo tag, parseImageURL imageURL = .ok (repo, tag) →
      GetImageID repo tag (remote.tagReq repo tag) = .ok [] →
      processImage imageURL remote =
        { ImageURL := imageURL, Report := none, Error := some (.imageIDEmpty tag) }) ∧
    (∀ repo tag, parseImageURL imageURL = .ok (repo, tag) →
      remote.tagReq = altRemote.tagReq →
      (GetImageID repo tag (remote.tagReq repo tag) = .ok [] ∨
        (∃ e, GetImageID repo tag (remote.tagReq repo tag) = .error e)) →
      processImage imageURL remote = processImage imageURL altRemote) ∧
    (∀ repo tag imageID e rep, parseImageURL imageURL = .ok (repo, tag) →
      GetImageID repo tag (remote.tagReq repo tag) = .ok imageID → imageID ≠ [] →
      GetVulnerabilities repo imageID (remote.secReq repo imageID) = (rep, some e) →
      processImage imageURL remote =
        { ImageURL := imageURL, Report := rep,
          Error := some (.gettingVulnerabilitiesFailed e) }) ∧
    (∀ repo tag imageID rep, parseImageURL imageURL = .ok (repo, tag) →
      GetImageID repo tag (remote.tagReq repo tag) = .ok imageID → imageID ≠ [] →
      GetVulnerabilities repo imageID (remote.secReq repo imageID) = (rep, none) →
      processImage imageURL remote =
        { ImageURL := imageURL, Report := rep, Error := none }) := by
  refine ⟨?_, ?_, ?_, ?_, ?_, ?_⟩
  · intro e hp
    constructor
    · simp [processImage, hp]
    · simp [processImage, hp]
  · intro repo tag e hp hg
    simp [processImage, hp, hg]
  · intro repo tag hp hg
    simp [processImage, hp, hg]
  · intro repo tag hp htag hcase
    rcases hcase with hg | ⟨e, hg⟩
    · simp [processImage, hp, hg, ← htag]
    · simp [processImage, hp, hg, ← htag]
  · intro repo tag imageID e rep hp hg hni hgv
    simp [processImage, hp, hg, hni, hgv]
  · intro repo tag imageID rep hp hg hni hgv
    simp [processImage, hp, hg, hni, hgv]

/-- Witness for C2 at a parse failure and a digest-resolution failure. -/
theorem processImage_pipeline_witness :
    (parseImageURL ("nope".toList) = .error .badPrefixErr ∧
      processImage ("nope".toList) failRemote =
        { ImageURL := "nope".toList, Report := none,
          Error := some (.parsingURLFailed .badPrefixErr) }) ∧
    (parseImageURL ("quay.io/a/b:t".toList) = .ok ("a/b".toList, "t".toList) ∧
      GetImageID ("a/b".toList) ("t".toList) (failRemote.tagReq ("a/b".toList) ("t".toList)) =
        .error (.tagDetails ("a/b".toList) ("t".toList) (.network [])) ∧
      processImage ("quay.io/a/b:t".toList) failRemote =
        { ImageURL := "quay.io/a/b:t".toList, Report := none,
          Error := some (.gettingImageIDFailed
            (.tagDetails ("a/b".toList) ("t".toList) (.network []))) }) :=
  ⟨⟨by decide,
    ((processImage_pipeline ("nope".toList) failRemote failRemote).1 .badPrefixErr (by decide)).1⟩,
   ⟨by decide, by decide,
    (processImage_pipeline ("quay.io/a/b:t".toList) failRemote failRemote).2.1
      ("a/b".toList) ("t".toList) (.tagDetails ("a/b".toList) ("t".toList) (.network []))
      (by decide) (by decide)⟩⟩

/-- C10: every result of `processImage` carries the input string as its
`ImageURL` and has the report present exactly when the error is absent;
in particular a report is never attached alongside an error, because
`GetVulnerabilities` pairs a present report with an absent error and
vice versa — the partial-report branch at main.go:277-279 can never
copy a report. -/
theorem processImage_invariant (imageURL : List Char) (remote : Remote) :
    (processImage imageURL remote).ImageURL = imageURL ∧
    ((processImage imageURL remote).Report.isSome =
      (processImage imageURL remote).Error.isNone) ∧
    (∀ (repo digest : List Char) (o : ReqOutcome SecurityReport),
      (GetVulnerabilities repo digest o).1.isSome =
        (GetVulnerabilities repo digest o).2.isNone) := by
  refine ⟨processImage_ImageURL imageURL remote, ?_, fun r d o => GetVulnerabilities_excl r d o⟩
  cases hp : parseImageURL imageURL with
  | error e => simp [processImage, hp]
  | ok p =>
    obtain ⟨repo, tag⟩ := p
    cases hg : GetImageID repo tag (remote.tagReq repo tag) with
    | error e => simp [processImage, hp, hg]
    | ok imageID =>
      by_cases hni : imageID = []
      · simp [processImage, hp, hg, hni]
      · have hx := GetVulnerabilities_excl repo imageID (remote.secReq repo imageID)
        cases hgv : GetVulnerabilities repo imageID (remote.secReq repo imageID) with
        | mk rep err =>
          rw [hgv] at hx
          cases err with
          | some e =>
            simp at hx
            simp [processImage, hp, hg, hni, hgv, hx]
          | none =>
            simp at hx
            simp [processImage, hp, hg, hni, hgv, hx]

lemma lookupRS_eraseKey (j k : List Char) (m : ResultSet) :
    lookupRS (eraseKey j m) k = if k = j then none else lookupRS m k := by
  induction m with
  | nil => simp [eraseKey, lookupRS]
  | cons kv rest ih =>
    obtain ⟨k', v⟩ := kv
    by_cases h1 : k' = j
    · rw [eraseKey, if_pos h1, ih]
      by_cases h2 : k = j
      · simp [h2]
      · have : ¬ (k = k') := by
          intro he
          exact h2 (h1 ▸ he)
        simp [h2, lookupRS, this]
    · rw [eraseKey, if_neg h1]
      by_cases h2 : k = k'
      · have : ¬ (k = j) := by
          intro he
          exact h1 (by rw [← h2, he])
        simp [lookupRS, h2, this, h1]
      · simp [lookupRS, h2, ih]

lemma lookupRS_insertResult (m : ResultSet) (r : ImageScanResult) (k : List Char) :
    lookupRS (insertResult m r) k = if k = r.ImageURL then some r else lookupRS m k := by
  unfold insertResult
  by_cases h : k = r.ImageURL <;> simp [lookupRS, h, lookupRS_eraseKey]

lemma lookupRS_foldl (g : List Char → ImageScanResult) (d : List ImageScanResult)
    (hval : ∀ r ∈ d, r = g r.ImageURL) (acc : ResultSet) (k : List Char) :
    lookupRS (d.foldl insertResult acc) k =
      if k ∈ d.map (fun r => r.ImageURL) then some (g k) else lookupRS acc k := by
  induction d generalizing acc with
  | nil => simp
  | cons r rest ih =>
    have hr : r = g r.ImageURL := hval r (by simp)
    have hrest : ∀ x ∈ rest, x = g x.ImageURL := fun x hx => hval x (by simp [hx])
    rw [List.foldl_cons, ih hrest]
    by_cases hk : k ∈ rest.map (fun r => r.ImageURL)
    · simp [hk]
    · by_cases hkr : k = r.ImageURL
      · rw [if_neg hk, lookupRS_insertResult, if_pos hkr]
        have : (k ∈ List.map (fun r => r.ImageURL) (r :: rest)) := by
          simp [hkr]
        rw [if_pos this, hkr, ← hr]
      · rw [if_neg hk, lookupRS_insertResult, if_neg hkr]
        have : ¬ (k ∈ List.map (fun r => r.ImageURL) (r :: rest)) := by
          simp only [List.map_cons, List.mem_cons]
          rintro (h | h)
          · exact hkr h
          · exact hk (by simpa using h)
        rw [if_neg this]

lemma keysRS_eraseKey_mem (j k : List Char) (m : ResultSet) :
    k ∈ keysRS (eraseKey j m) ↔ (k ≠ j ∧ k ∈ keysRS m) := by
  induction m with
  | nil => simp [keysRS, eraseKey]
  | cons kv rest ih =>
    obtain ⟨k', v⟩ := kv
    by_cases h1 : k' = j
    · rw [eraseKey, if_pos h1, ih]
      subst h1
      simp only [keysRS, List.map_cons, List.mem_cons]
      constructor
      · rintro ⟨hne, hmem⟩
        exact ⟨hne, Or.inr hmem⟩
      · rintro ⟨hne, (he | hmem)⟩
        · exact absurd he hne
        · exact ⟨hne, hmem⟩
    · rw [eraseKey, if_neg h1]
      simp only [keysRS, List.map_cons, List.mem_cons] at ih ⊢
      rw [ih]
      constructor
      · rintro (he | ⟨hne, hmem⟩)
        · constructor
          · intro hj
            exact h1 (by rw [← he, hj])
          · exact Or.inl he
        · exact ⟨hne, Or.inr hmem⟩
      · rintro ⟨hne, (he | hmem)⟩
        · exact Or.inl he
        · exact Or.inr ⟨hne, hmem⟩

lemma keysRS_eraseKey_nodup (j : List Char) (m : ResultSet)
    (h : (keysRS m).Nodup) : (keysRS (eraseKey j m)).Nodup := by
  induction m with
  | nil => simp [keysRS, eraseKey]
  | cons kv rest ih =>
    obtain ⟨k', v⟩ := kv
    simp only [keysRS, List.map_cons, List.nodup_cons] at h
    by_cases h1 : k' = j
    · rw [eraseKey, if_pos h1]
      exact ih h.2
    · rw [eraseKey, if_neg h1]
      simp only [keysRS, List.map_cons, List.nodup_cons]
      refine ⟨?_, ih h.2⟩
      intro hmem
      have := (keysRS_eraseKey_mem j k' rest).1 hmem
      exact h.1 this.2

lemma keysRS_insertResult_nodup (m : ResultSet) (r : ImageScanResult)
    (h : (keysRS m).Nodup) : (keysRS (insertResult m r)).Nodup := by
  unfold insertResult
  simp only [keysRS, List.map_cons, List.nodup_cons]
  constructor
  · intro hmem
    have := (keysRS_eraseKey_mem r.ImageURL r.ImageURL m).1 hmem
    exact this.1 rfl
  · exact keysRS_eraseKey_nodup _ _ h

lemma keysRS_foldl_mem (d : List ImageScanResult) (acc : ResultSet) (k : List Char) :
    k ∈ keysRS (d.foldl insertResult acc) ↔
      (k ∈ d.map (fun r => r.ImageURL) ∨ k ∈ keysRS acc) := by
  induction d generalizing acc with
  | nil => simp
  | cons r rest ih =>
    rw [List.foldl_cons, ih]
    simp only [List.map_cons, List.mem_cons]
    have hins : k ∈ keysRS (insertResult acc r) ↔ (k = r.ImageURL ∨ k ∈ keysRS acc) := by
      unfold insertResult
      simp only [keysRS, List.map_cons, List.mem_cons]
      rw [show (List.map Prod.fst (eraseKey r.ImageURL acc) : List (List Char)) =
        keysRS (eraseKey r.ImageURL acc) from rfl, keysRS_eraseKey_mem]
      constructor
      · rintro (he | ⟨hne, hmem⟩)
        · exact Or.inl he
        · exact Or.inr hmem
      · rintro (he | hmem)
        · exact Or.inl he
        · by_cases he2 : k = r.ImageURL
          · exact Or.inl he2
          · exact Or.inr ⟨he2, hmem⟩
    rw [hins]
    tauto

lemma keysRS_foldl_nodup (d : List ImageScanResult) (acc : ResultSet)
    (h : (keysRS acc).Nodup) : (keysRS (d.foldl insertResult acc)).Nodup := by
  induction d generalizing acc with
  | nil => simpa
  | cons r rest ih =>
    rw [List.foldl_cons]
    exact ih _ (keysRS_insertResult_nodup acc r h)

lemma collectResults_length (d : List ImageScanResult) :
    (collectResults d).length = (d.map (fun r => r.ImageURL)).dedup.length := by
  have h1 : (keysRS (collectResults d)).Nodup :=
    keysRS_foldl_nodup d [] (by simp [keysRS])
  have h2 : ∀ k, k ∈ keysRS (collectResults d) ↔ k ∈ (d.map (fun r => r.ImageURL)).dedup := by
    intro k
    rw [List.mem_dedup, collectResults, keysRS_foldl_mem]
    simp [keysRS]
  have hperm := (List.perm_ext_iff_of_nodup h1 (List.nodup_dedup _)).2 h2
  have hlen := hperm.length_eq
  simpa [keysRS] using hlen

lemma runWorkerPool_spec (urls : List (List Char)) (remote : Remote) (w : Nat)
    (d : List ImageScanResult) (rs : ResultSet)
    (hw : 1 ≤ w) (h : runWorkerPool urls remote w d = some rs) :
    rs.length = urls.dedup.length ∧
    (∀ u, lookupRS rs u = if u ∈ urls then some (processImage u remote) else none) := by
  have hw0 : ¬ (w = 0 ∧ urls ≠ []) := by
    rintro ⟨hz, _⟩
    omega
  rw [runWorkerPool, if_neg hw0] at h
  by_cases hperm : d.isPerm (scanBatch remote urls) = true
  · rw [if_pos hperm, Option.some.injEq] at h
    subst h
    have hPerm : List.Perm d (scanBatch remote urls) := List.isPerm_iff.1 hperm
    have hval : ∀ r ∈ d, r = processImage r.ImageURL remote := by
      intro r hr
      have hmem : r ∈ scanBatch remote urls := hPerm.mem_iff.1 hr
      obtain ⟨u, hu, hru⟩ := List.mem_map.1 hmem
      rw [← hru, processImage_ImageURL]
    have hkeys : List.Perm (d.map (fun r => r.ImageURL)) urls := by
      have h1 := hPerm.map (fun r => r.ImageURL)
      rw [scanBatch, List.map_map] at h1
      have h2 : urls.map ((fun r => r.ImageURL) ∘ (fun url => processImage url remote)) = urls := by
        have hcomp : ∀ u ∈ urls,
            ((fun r => r.ImageURL) ∘ (fun url => processImage url remote)) u = id u := by
          intro u _
          simp [processImage_ImageURL]
        rw [List.map_congr_left hcomp, List.map_id]
      rwa [h2] at h1
    constructor
    · rw [collectResults_length d, (hkeys.dedup).length_eq]
    · intro u
      rw [collectResults, lookupRS_foldl (fun u => processImage u remote) d hval [] u]
      by_cases hu : u ∈ urls
      · rw [if_pos (hkeys.mem_iff.2 hu), if_pos hu]
      · rw [if_neg (fun hm => hu (hkeys.mem_iff.1 hm)), if_neg hu]
        rfl
  · rw [if_neg hperm] at h
    cases h

/-- C1: any completed run of the worker pool returns a result map with
exactly one entry per distinct reference string of the input, each entry
keyed by the original reference and holding that reference's processing
result (duplicates collapse to one entry, and since every submission of
the same reference yields the same result, the surviving last-submitted
entry equals it); the map is independent of the worker count and of the
delivery order, and the empty batch yields the empty map. -/
theorem runWorkerPool_resultset (urls : List (List Char)) (remote : Remote)
    (w w₂ : Nat) (d d₂ : List ImageScanResult) (rs rs₂ : ResultSet)
    (hw : 1 ≤ w) (hw₂ : 1 ≤ w₂)
    (h : runWorkerPool urls remote w d = some rs)
    (h₂ : runWorkerPool urls remote w₂ d₂ = some rs₂) :
    rs.length = urls.dedup.length ∧
    (∀ u, lookupRS rs u = if u ∈ urls then some (processImage u remote) else none) ∧
    (∀ u, lookupRS rs u = lookupRS rs₂ u) ∧
    (urls = [] → rs = []) := by
  obtain ⟨hlen, hlook⟩ := runWorkerPool_spec urls remote w d rs hw h
  obtain ⟨hlen₂, hlook₂⟩ := runWorkerPool_spec urls remote w₂ d₂ rs₂ hw₂ h₂
  refine ⟨hlen, hlook, fun u => by rw [hlook u, hlook₂ u], ?_⟩
  intro hnil
  subst hnil
  have hz : rs.length = 0 := by simpa using hlen
  exact List.length_eq_zero.1 hz

/-- C9: failure isolation.  If under a second remote the processing of
one reference fails while every other reference processes exactly as
before, a completed run still returns a map of unchanged size, every
other reference keeps its result unchanged, and the failing reference's
own entry records the failure. -/
theorem runWorkerPool_failure_isolation (urls : List (List Char))
    (remote remoteF : Remote) (failingRef : List Char) (w wF : Nat)
    (d dF : List ImageScanResult) (rs rsF : ResultSet)
    (hw : 1 ≤ w) (hwF : 1 ≤ wF)
    (h : runWorkerPool urls remote w d = some rs)
    (hF : runWorkerPool urls remoteF wF dF = some rsF)
    (hagree : ∀ u, u ≠ failingRef → processImage u remoteF = processImage u remote)
    (hfail : (processImage failingRef remoteF).Error.isSome = true) :
    rsF.length = rs.length ∧
    (∀ u, u ∈ urls → u ≠ failingRef → lookupRS rsF u = lookupRS rs u) ∧
    (failingRef ∈ urls →
      ∃ res, lookupRS rsF failingRef = some res ∧ res.Error.isSome = true) := by
  obtain ⟨hlen, hlook⟩ := runWorkerPool_spec urls remote w d rs hw h
  obtain ⟨hlenF, hlookF⟩ := runWorkerPool_spec urls remoteF wF dF rsF hwF hF
  refine ⟨hlenF.trans hlen.symm, ?_, ?_⟩
  · intro u hu hne
    rw [hlook u, hlookF u, if_pos hu, if_pos hu, hagree u hne]
  · intro hR
    refine ⟨processImage failingRef remoteF, ?_, hfail⟩
    rw [hlookF failingRef, if_pos hR]

/-- Witness for C1 at a three-element batch with a duplicate, run with
one and with two workers. -/
theorem runWorkerPool_resultset_witness :
    1 ≤ 1 ∧ 1 ≤ 2 ∧
    runWorkerPool sampleURLs failRemote 1 failBatch = some failRS ∧
    runWorkerPool sampleURLs failRemote 2 failBatch = some failRS ∧
    failRS.length = sampleURLs.dedup.length :=
  ⟨Nat.le_refl 1, by decide, by decide, by decide,
    (runWorkerPool_resultset sampleURLs failRemote 1 2 failBatch failBatch failRS failRS
      (Nat.le_refl 1) (by decide) (by decide) (by decide)).1⟩

/-- Witness for C9 at a remote failing for every reference, the failing
reference being the duplicated one. -/
theorem runWorkerPool_failure_isolation_witness :
    (processImage ("quay.io/a/b:t".toList) failRemote).Error.isSome = true ∧
    (failRS.length = failRS.length ∧
     (∀ u, u ∈ sampleURLs → u ≠ "quay.io/a/b:t".toList →
       lookupRS failRS u = lookupRS failRS u) ∧
     ("quay.io/a/b:t".toList ∈ sampleURLs →
       ∃ res, lookupRS failRS ("quay.io/a/b:t".toList) = some res ∧
         res.Error.isSome = true)) :=
  ⟨by decide,
    runWorkerPool_failure_isolation sampleURLs failRemote failRemote
      ("quay.io/a/b:t".toList) 1 1 failBatch failBatch failRS failRS
      (Nat.le_refl 1) (Nat.le_refl 1) (by decide) (by decide)
      (fun _ _ => rfl) (by decide)⟩

end QuayScanner
